import Mathlib

/-!
Verification of the `create-aio-lib` scaffolding generator.

The development shallowly embeds the pipeline of `src/commands/create.js`
(class `CreateAioLibCommand`): manifest rewriting (`updatePackageJson`),
parameter loading (`readParametersFile`), token substitution (`replaceText`),
cleanup (`cleanup`) and the orchestrating `run` with its destination-folder
precheck.  JavaScript objects are embedded as insertion-ordered association
lists, the filesystem as an association list from relative paths (relative to
the destination folder) to file contents, and `String.prototype.replace` with
a `g`-flagged regex built from a brace-escaped literal token is embedded as a
leftmost non-overlapping literal scan together with the ECMAScript
`GetSubstitution` expansion of `$`-patterns in the replacement string.
-/

namespace CreateAioLib

/-- JSON values, as produced by `fse.readJson`.  Objects are insertion-ordered
association lists (JavaScript object key order); `JSON.parse` never yields
duplicate keys. -/
inductive JValue where
  | str (s : String)
  | num (n : Int)
  | bool (b : Bool)
  | null
  | obj (fields : List (String × JValue))
  | arr (elems : List JValue)

/-- A JSON object body: the ordered field list of a parsed JSON object. -/
abbrev JObj := List (String × JValue)

/-- Keyed read over an insertion-ordered association list: first entry with
the given key (JS objects and directories have unique keys, so
first = only).  Serves both JSON property reads `o[k]` and filesystem
lookups (`fse.pathExists` / `fse.readFile`). -/
def aget {α : Type} (o : List (String × α)) (k : String) : Option α :=
  match o with
  | [] => none
  | (k', v) :: rest => if k' = k then some v else aget rest k

/-- Keyed write `o[k] = v`: updates the existing entry in place (keeping its
position, as JavaScript objects do) or appends a new entry at the end.
Also serves filesystem writes (`fse.writeFile` / `fse.writeJson`). -/
def aset {α : Type} (o : List (String × α)) (k : String) (v : α) : List (String × α) :=
  match o with
  | [] => [(k, v)]
  | (k', v') :: rest =>
      if k' = k then (k, v) :: rest
      else (k', v') :: aset rest k v

/-- JavaScript falsiness of a JSON value (`!v`): `null`, `false`, `0` and the
empty string are falsy; every object and array is truthy. -/
def jsFalsy : JValue → Bool
  | .null => true
  | .bool b => !b
  | .num n => n == 0
  | .str s => s == ""
  | .obj _ => false
  | .arr _ => false

/-- Projection of a JSON string value, used to state concrete facts about
computed manifests without a decidable equality on `JValue`. -/
def asStr : JValue → Option String
  | .str s => some s
  | _ => none

/-- The check `key.startsWith('_')` on a JSON key, embedded over the key's
character list (a single-character pattern, so prefix test = first-character
test). -/
def underscoreKey (k : String) : Bool :=
  match k.data with
  | [] => false
  | c :: _ => c = '_'

/-- The assignment `json.bugs.url = ...` of `updatePackageJson`: a property
write on the value stored under `bugs`.  When that value is a truthy
primitive the sloppy-mode assignment has no effect on the stored document,
and for an array the extra named property is dropped again by
`JSON.stringify`, so every non-object case is embedded as the identity. -/
def setBugsUrl (repoName : String) (o : JObj) : JObj :=
  match aget o "bugs" with
  | some (.obj bo) =>
      aset o "bugs"
        (.obj (aset bo "url" (.str ("https://github.com/@" ++ repoName ++ "/issues"))))
  | _ => o

/-- The in-memory rewrite performed by `updatePackageJson` in
`src/commands/create.js` on the parsed `package.json` object, for a given
`repoName` (leading `@` already stripped by `run`):

* `json.bugs = json.bugs || {}` — a falsy `bugs` becomes an empty object;
* `json.name` becomes `"@" ++ repoName`;
* `json.repository` and `json.homepage` become
  `"https://github.com/@" ++ repoName` (note the `@`, taken verbatim from the
  template strings in the source);
* `json.bugs.url` becomes `"https://github.com/@" ++ repoName ++ "/issues"`
  via `setBugsUrl`;
* `json.version` becomes `"0.0.1"`;
* every top-level key starting with `_` is deleted. -/
def updatePackageJson (repoName : String) (json : JObj) : JObj :=
  let bugs0 : JValue :=
    match aget json "bugs" with
    | some v => if jsFalsy v then .obj [] else v
    | none => .obj []
  let j1 := aset json "bugs" bugs0
  let j2 := aset j1 "name" (.str ("@" ++ repoName))
  let j3 := aset j2 "repository" (.str ("https://github.com/@" ++ repoName))
  let j4 := aset j3 "homepage" (.str ("https://github.com/@" ++ repoName))
  let j5 := setBugsUrl repoName j4
  let j6 := aset j5 "version" (.str "0.0.1")
  j6.filter (fun kv => !underscoreKey kv.1)

theorem aget_aset_self {α : Type} (o : List (String × α)) (k : String) (v : α) :
    aget (aset o k v) k = some v := by
  induction o with
  | nil => simp [aset, aget]
  | cons hd tl ih =>
      by_cases h : hd.1 = k
      · simp [aset, aget, h]
      · simp [aset, aget, h, ih]

theorem aget_aset_ne {α : Type} (o : List (String × α)) (k k' : String) (v : α) (h : k' ≠ k) :
    aget (aset o k' v) k = aget o k := by
  induction o with
  | nil => simp [aset, aget, h]
  | cons hd tl ih =>
      by_cases hh : hd.1 = k'
      · simp [aset, aget, hh, Ne.symm h, h, ih]
      · by_cases hk : hd.1 = k
        · simp [aset, aget, hh, hk, Ne.symm h]
        · simp [aset, aget, hh, hk, ih]

theorem aget_filterUnderscore_of_underscore {α : Type} (o : List (String × α)) (k : String)
    (h : underscoreKey k = true) :
    aget (o.filter (fun kv => !underscoreKey kv.1)) k = none := by
  induction o with
  | nil => simp [aget]
  | cons hd tl ih =>
      rw [List.filter_cons]
      cases hu : underscoreKey hd.1 with
      | true => simpa [hu] using ih
      | false =>
          have hk : hd.1 ≠ k := fun he => by rw [he, h] at hu; exact Bool.noConfusion hu
          simp [hu, aget, hk, ih]

theorem aget_filterUnderscore_of_not {α : Type} (o : List (String × α)) (k : String)
    (h : underscoreKey k = false) :
    aget (o.filter (fun kv => !underscoreKey kv.1)) k = aget o k := by
  induction o with
  | nil => simp [aget]
  | cons hd tl ih =>
      rw [List.filter_cons]
      cases hu : underscoreKey hd.1 with
      | true =>
          have hk : hd.1 ≠ k := fun he => by rw [he, h] at hu; exact Bool.noConfusion hu
          simp [hu, aget, hk, ih]
      | false =>
          by_cases hk : hd.1 = k
          · simp [hu, aget, hk]
          · simp [hu, aget, hk, ih]

theorem aget_setBugsUrl_ne (r : String) (o : JObj) (k : String) (h : k ≠ "bugs") :
    aget (setBugsUrl r o) k = aget o k := by
  unfold setBugsUrl
  cases hb : aget o "bugs" with
  | none => rfl
  | some v =>
      cases v with
      | obj bo => exact aget_aset_ne _ _ _ _ (Ne.symm h)
      | str s => rfl
      | num n => rfl
      | bool b => rfl
      | null => rfl
      | arr es => rfl

theorem aget_updatePackageJson_other (r : String) (j : JObj) (k : String)
    (hu : underscoreKey k = false)
    (h1 : k ≠ "name") (h2 : k ≠ "repository") (h3 : k ≠ "homepage")
    (h4 : k ≠ "bugs") (h5 : k ≠ "version") :
    aget (updatePackageJson r j) k = aget j k := by
  unfold updatePackageJson
  rw [aget_filterUnderscore_of_not _ _ hu,
      aget_aset_ne _ _ _ _ (Ne.symm h5),
      aget_setBugsUrl_ne _ _ _ h4,
      aget_aset_ne _ _ _ _ (Ne.symm h3),
      aget_aset_ne _ _ _ _ (Ne.symm h2),
      aget_aset_ne _ _ _ _ (Ne.symm h1),
      aget_aset_ne _ _ _ _ (Ne.symm h4)]

/-- **C4** (confirmed).  For every input `package.json` object, every
top-level field whose key starts with an underscore is absent from the output
of `updatePackageJson`, and every other field outside
`name`/`repository`/`homepage`/`bugs`/`version` is preserved unchanged. -/
theorem claim_c4_underscore_purge_and_frame (r : String) (j : JObj) (k : String) :
    (underscoreKey k = true → aget (updatePackageJson r j) k = none) ∧
    (underscoreKey k = false →
      k ∉ (["name", "repository", "homepage", "bugs", "version"] : List String) →
      aget (updatePackageJson r j) k = aget j k) := by
  constructor
  · intro h
    unfold updatePackageJson
    exact aget_filterUnderscore_of_underscore _ _ h
  · intro hu hmem
    simp only [List.mem_cons, List.not_mem_nil, or_false, not_or] at hmem
    obtain ⟨h1, h2, h3, h4, h5⟩ := hmem
    exact aget_updatePackageJson_other r j k hu h1 h2 h3 h4 h5

/-- Witness for **C4** at a concrete manifest: the scaffold-internal field
`_masks` is purged while the unrelated field `license` survives unchanged. -/
theorem claim_c4_witness :
    aget
      (updatePackageJson "example/repo"
        [("name", .str "oldName"), ("_masks", .str "x"), ("license", .str "Apache-2.0")])
      "_masks" = none ∧
    aget
      (updatePackageJson "example/repo"
        [("name", .str "oldName"), ("_masks", .str "x"), ("license", .str "Apache-2.0")])
      "license" = some (.str "Apache-2.0") :=
  ⟨(claim_c4_underscore_purge_and_frame "example/repo"
      [("name", .str "oldName"), ("_masks", .str "x"), ("license", .str "Apache-2.0")]
      "_masks").1 (by decide),
   by
    rw [(claim_c4_underscore_purge_and_frame "example/repo"
      [("name", .str "oldName"), ("_masks", .str "x"), ("license", .str "Apache-2.0")]
      "license").2 (by decide) (by decide)]
    rfl⟩

/-- **C1** (code bug).  Evaluating `updatePackageJson` at the input of the
repository's own unit test (`repoName = "example/repo"`, source manifest
`{ name: "oldName" }`): the code writes `https://github.com/@example/repo`
(with a stray `@`) into `repository` and `homepage` and
`https://github.com/@example/repo/issues` into `bugs.url`, while the claim —
and the test's expectation — is the same URL without the `@`. -/
theorem claim_c1_code_bug_eval :
    aget (updatePackageJson "example/repo" [("name", .str "oldName")]) "repository"
        = some (.str "https://github.com/@example/repo") ∧
    aget (updatePackageJson "example/repo" [("name", .str "oldName")]) "homepage"
        = some (.str "https://github.com/@example/repo") ∧
    aget (updatePackageJson "example/repo" [("name", .str "oldName")]) "bugs"
        = some (.obj [("url", .str "https://github.com/@example/repo/issues")]) ∧
    aget (updatePackageJson "example/repo" [("name", .str "oldName")]) "name"
        = some (.str "@example/repo") ∧
    aget (updatePackageJson "example/repo" [("name", .str "oldName")]) "version"
        = some (.str "0.0.1") ∧
    ("https://github.com/@example/repo" : String) ≠ "https://github.com/example/repo" :=
  ⟨rfl, rfl, rfl, rfl, rfl, by decide⟩

/-! ### Token substitution: string replacement machinery

`replaceText` builds, for each resolvable token, the pattern
`from.replace(/{/g, '\\{').replace(/}/g, '\\}')` and applies
`fileContents.replace(new RegExp(from, 'g'), to)`.  The patterns the code
constructs this way from its token table consist solely of literal atoms
(word characters and backslash-escaped braces), so the `g`-flagged regex
replacement is embedded as a leftmost non-overlapping literal scan; the
replacement string is expanded per the ECMAScript `GetSubstitution` rules
(`$$`, `$&`, the dollar-backtick and dollar-quote forms; any other `$` is
literal, as the pattern has no capture groups). -/

/-- The token strings of the source's `toFrom` table that contain braces. -/
def repoTok : String := "\x7b\x7bREPO\x7d\x7d"

/-- The `LIB_NAME` token `{{LIB_NAME}}` of the `toFrom` table. -/
def libTok : String := "\x7b\x7bLIB_NAME\x7d\x7d"

/-- Brace escaping over the character list:
`from.replace(/{/g, '\\{').replace(/}/g, '\\}')`. -/
def escapeBracesL : List Char → List Char
  | [] => []
  | c :: rest =>
      if c = '\x7b' then '\\' :: c :: escapeBracesL rest
      else if c = '\x7d' then '\\' :: c :: escapeBracesL rest
      else c :: escapeBracesL rest

/-- Brace escaping of a token, as performed before `new RegExp(from, 'g')`. -/
def escapeBraces (s : String) : String := String.mk (escapeBracesL s.data)

/-- Characters that are syntax in an ECMAScript pattern.  A pattern containing
one of these unescaped is outside the literal fragment modeled here. -/
def isRegexMeta (c : Char) : Bool :=
  c = '\\' || c = '^' || c = '$' || c = '.' || c = '|' || c = '?' || c = '*' ||
  c = '+' || c = '(' || c = ')' || c = '[' || c = ']' || c = '\x7b' || c = '\x7d'

/-- Parses an escaped pattern that denotes a literal character sequence:
backslash-escaped braces (the only escapes `escapeBraces` introduces) and
non-metacharacters.  Returns `none` for pattern syntax outside this fragment
(never produced from the source's token table). -/
def patParse : List Char → Option (List Char)
  | [] => some []
  | '\\' :: c :: rest =>
      if c = '\x7b' ∨ c = '\x7d' then (patParse rest).map (c :: ·) else none
  | ['\\'] => none
  | c :: rest =>
      if isRegexMeta c then none else (patParse rest).map (c :: ·)

/-- Boolean prefix test on character lists. -/
def listIsPre : List Char → List Char → Bool
  | [], _ => true
  | _ :: _, [] => false
  | a :: as, b :: bs => a = b && listIsPre as bs

/-- ECMAScript `GetSubstitution` for a pattern with no capture groups:
`$$` yields `$`, `$&` the matched text, dollar-backtick the text before the
match, dollar-quote the text after it; any other `$` is literal. -/
def jsGetSubstitution (matched before after : String) : List Char → List Char
  | [] => []
  | [c] => [c]
  | c :: d :: rest =>
      if c = '$' then
        if d = '$' then '$' :: jsGetSubstitution matched before after rest
        else if d = '&' then matched.data ++ jsGetSubstitution matched before after rest
        else if d = Char.ofNat 96 then before.data ++ jsGetSubstitution matched before after rest
        else if d = Char.ofNat 39 then after.data ++ jsGetSubstitution matched before after rest
        else c :: jsGetSubstitution matched before after (d :: rest)
      else c :: jsGetSubstitution matched before after (d :: rest)

/-- Fuel-indexed global replacement of the literal pattern `pat` by the
`GetSubstitution`-expanded `rep`, scanning `rest` left to right;
`pre` is the already-scanned portion of the original string (feeding the
dollar-backtick form).  The fuel starts at the subject's length, which
suffices since each step consumes at least one character. -/
def jsReplaceCore (pat rep : List Char) : Nat → List Char → List Char → List Char
  | 0, _, rest => rest
  | Nat.succ fuel, pre, rest =>
      if 0 < pat.length ∧ listIsPre pat rest = true then
        jsGetSubstitution (String.mk pat) (String.mk pre)
            (String.mk (rest.drop pat.length)) rep
          ++ jsReplaceCore pat rep fuel (pre ++ pat) (rest.drop pat.length)
      else
        match rest with
        | [] => []
        | c :: rest' => c :: jsReplaceCore pat rep fuel (pre ++ [c]) rest'

/-- Plain literal global replacement (the specification-side reading of
"global literal-text replacement"): every occurrence of `pat` is replaced by
`rep` itself, with no `$`-expansion. -/
def litReplaceCore (pat rep : List Char) : Nat → List Char → List Char
  | 0, rest => rest
  | Nat.succ fuel, rest =>
      if 0 < pat.length ∧ listIsPre pat rest = true then
        rep ++ litReplaceCore pat rep fuel (rest.drop pat.length)
      else
        match rest with
        | [] => []
        | c :: rest' => c :: litReplaceCore pat rep fuel rest'

/-- Literal global replacement on strings ("replace every occurrence of the
token text with the resolved value", modelled from the spec's words). -/
def litReplaceG (pat rep s : String) : String :=
  String.mk (litReplaceCore pat.data rep.data s.data.length s.data)

/-- The embedding of
`fileContents.replace(new RegExp(from, 'g'), to)` from `replaceText`, where
`from` has already been brace-escaped: the escaped pattern is read back as a
literal character sequence and replaced globally with `GetSubstitution`
expansion of `to`.  Patterns outside the literal fragment (never produced
from the source's token table, which is the only source of `from`) leave the
content unchanged. -/
def regexReplaceText (tok rep content : String) : String :=
  match patParse (escapeBraces tok).data with
  | some lits => String.mk (jsReplaceCore lits rep.data content.data.length [] content.data)
  | none => content

theorem jsGetSubstitution_of_noDollar (m b a : String) (rep : List Char)
    (h : rep.all (fun c => c ≠ '$') = true) :
    jsGetSubstitution m b a rep = rep := by
  induction rep with
  | nil => rfl
  | cons c rest ih =>
      rw [List.all_cons] at h
      obtain ⟨hc, hrest⟩ := Bool.and_eq_true_iff.mp h
      have hc' : ¬(c = '$') := by simpa using hc
      cases rest with
      | nil => rfl
      | cons d rest' =>
          simp only [jsGetSubstitution, if_neg hc']
          rw [ih hrest]

theorem jsReplaceCore_eq_lit_of_noDollar (pat rep : List Char)
    (h : rep.all (fun c => c ≠ '$') = true) :
    ∀ (fuel : Nat) (pre rest : List Char),
      jsReplaceCore pat rep fuel pre rest = litReplaceCore pat rep fuel rest := by
  intro fuel
  induction fuel with
  | zero => intro pre rest; rfl
  | succ n ih =>
      intro pre rest
      by_cases hc : 0 < pat.length ∧ listIsPre pat rest = true
      · simp only [jsReplaceCore, litReplaceCore, if_pos hc]
        rw [jsGetSubstitution_of_noDollar _ _ _ _ h, ih]
      · cases rest with
        | nil => simp only [jsReplaceCore, litReplaceCore, if_neg hc]
        | cons c rest' =>
            simp only [jsReplaceCore, litReplaceCore, if_neg hc]
            show c :: jsReplaceCore pat rep n (pre ++ [c]) rest'
                = c :: litReplaceCore pat rep n rest'
            rw [ih]

/-- **C5 counterexample.**  The claim promises a *literal-text* replacement of
the token by its resolved value for every brace-containing token and every
content; at resolved value `$&` (legal in a repo name) the code instead
expands `$&` to the matched token, so the output differs from the literal
replacement: replacing `{{LIB_NAME}}` by `$&` inside the content
`{{LIB_NAME}}` yields `{{LIB_NAME}}` again rather than `$&`. -/
theorem claim_c5_counterexample :
    regexReplaceText libTok "$&" libTok = libTok ∧
    litReplaceG libTok "$&" libTok = "$&" ∧
    regexReplaceText libTok "$&" libTok ≠ litReplaceG libTok "$&" libTok := by
  refine ⟨rfl, rfl, ?_⟩
  intro h
  have : libTok = "$&" := by
    calc libTok = regexReplaceText libTok "$&" libTok := rfl
    _ = litReplaceG libTok "$&" libTok := h
    _ = "$&" := rfl
  exact absurd (congrArg String.length this) (by decide)

/-- **C5** (amended).  For the brace-containing tokens of the resolution
table (`{{REPO}}`, `{{LIB_NAME}}`): the brace-escaped pattern parses back to
exactly the literal token text (braces are never pattern syntax), and for
every content and every resolved value containing no `$` character the
substitution equals the global literal-text replacement of the token by the
value. -/
theorem claim_c5_amended_literal_replacement (tok v content : String)
    (htok : tok = repoTok ∨ tok = libTok)
    (hv : v.data.all (fun c => c ≠ '$') = true) :
    patParse (escapeBraces tok).data = some tok.data ∧
    regexReplaceText tok v content = litReplaceG tok v content := by
  have hparse : patParse (escapeBraces tok).data = some tok.data := by
    cases htok with
    | inl h => rw [h]; rfl
    | inr h => rw [h]; rfl
  refine ⟨hparse, ?_⟩
  unfold regexReplaceText
  rw [hparse]
  simp only [litReplaceG]
  rw [jsReplaceCore_eq_lit_of_noDollar _ _ hv]

/-- Witness for **C5 (amended)** at `{{LIB_NAME}} → Foo` on a concrete file
content. -/
theorem claim_c5_amended_witness :
    regexReplaceText libTok "Foo" "a\x7b\x7bLIB_NAME\x7d\x7db" =
      litReplaceG libTok "Foo" "a\x7b\x7bLIB_NAME\x7d\x7db" :=
  (claim_c5_amended_literal_replacement libTok "Foo" "a\x7b\x7bLIB_NAME\x7d\x7db"
    (Or.inr rfl) (by decide)).2

/-! ### Filesystem and pipeline model

The destination folder's tree is an association list from relative POSIX
paths to file contents.  Contents are classified by how they parse:
substitution targets are plain `text`; `package.json` (read by
`fse.readJson`) is a parsed JSON object; `template.parameters.json` (read by
`require`) is a parsed token→path-list mapping when well-formed JSON and
`malformed` otherwise.  `replaceText` only ever reads the files listed in
the parameter manifest, which the theorems below constrain to be `text`
files (or absent). -/

/-- File contents, classified by how the pipeline parses them. -/
inductive FileC where
  | text (s : String)
  | pkg (o : JObj)
  | params (p : List (String × List String))
  | malformed

/-- The parameter manifest: ordered mapping token → list of relative paths
(`template.parameters.json`, loaded verbatim by `require`). -/
abbrev Params := List (String × List String)

/-- A directory tree: relative path → file contents. -/
abbrev Files := List (String × FileC)

/-- Projection of a text file's contents (used in closed statements). -/
def fileText : FileC → Option String
  | .text s => some s
  | _ => none

/-- Removal of a path (`fse.remove`); removing an absent path is a no-op. -/
def aremove {α : Type} (o : List (String × α)) (k : String) : List (String × α) :=
  match o with
  | [] => []
  | (k', v) :: rest => if k' = k then aremove rest k else (k', v) :: aremove rest k

/-- `fse.move(src, dst)` without the overwrite option: renames `src` onto
`dst`; rejects (here: no state change, the rejection being unobserved by
`cleanup`) when `src` is absent or `dst` already exists. -/
def moveF (fs : Files) (src dst : String) : Files :=
  match aget fs src with
  | none => fs
  | some c =>
      match aget fs dst with
      | some _ => fs
      | none => aset (aremove fs src) dst c

/-- Boolean string prefix test over character lists (for `.git/` paths). -/
def strHasPre (pat s : String) : Bool := listIsPre pat.data s.data

/-- `path.join(a, b)` for a relative POSIX component. -/
def pathJoin (a b : String) : String := a ++ "/" ++ b

/-- The fixed token resolution table `toFrom` of `replaceText`:
`{{REPO}} → repoName`, `{{LIB_NAME}} → libName`, `LibNameCoreAPI → libName`;
every other token is unmapped. -/
def toFrom (libName repoName tok : String) : Option String :=
  if tok = repoTok then some repoName
  else if tok = libTok then some libName
  else if tok = "LibNameCoreAPI" then some libName
  else none

/-- The diagnostic `console.error` message for an unresolvable token. -/
def noMapMsg (tok : String) : String :=
  "No mapping found, skipping replace of " ++ tok

/-- The error of the unawaited `fse.readFile` on a missing path (an
unhandled promise rejection escaping `replaceText`). -/
def readFailMsg (item : String) : String :=
  "ENOENT: no such file or directory, open " ++ item

/-- One iteration of the token loop of `replaceText`: look the token up in
`toFrom`; on a falsy result (`undefined`, or the empty string when the
resolved name is empty) emit the diagnostic and leave the content alone;
otherwise replace the brace-escaped token globally. -/
def substToken (lib repo : String) (acc : List String × String) (tok : String) :
    List String × String :=
  match toFrom lib repo tok with
  | none => (acc.1 ++ [noMapMsg tok], acc.2)
  | some v =>
      if v = "" then (acc.1 ++ [noMapMsg tok], acc.2)
      else (acc.1, regexReplaceText tok v acc.2)

/-- The deduplicating set union `new Set([...set, ...values])`: appends each
element not yet present, preserving first-occurrence order. -/
def addItems (acc : List String) : List String → List String
  | [] => acc
  | x :: xs => if acc.contains x then addItems acc xs else addItems (acc ++ [x]) xs

/-- `pathItemSet` of `replaceText`: all file paths of the manifest,
deduplicated in first-occurrence order. -/
def pathItems (p : Params) : List String :=
  p.foldl (fun acc kv => addItems acc kv.2) []

/-- The tokens applying to one path: every manifest key whose path list
`includes` the path, in manifest order. -/
def tokensFor (p : Params) (item : String) : List String :=
  (p.filter (fun kv => kv.2.contains item)).map Prod.fst

/-- Mutable run state: the destination tree, `ctx.paramsJson`, the
`console.error` diagnostics, the unhandled asynchronous rejections that
escaped fire-and-forget operations, the paths written back by
`replaceText`, and the titles of the stages the task runner has started. -/
structure Mid where
  files : Files
  paramsJson : Option Params
  diags : List String
  unhandled : List String
  written : List String
  executed : List String

/-- The per-file job of `replaceText` (the body of
`pathItemSet.forEach(async pathItem => ...)`): collect the path's tokens,
read the file, fold the token substitutions over its contents, and write it
back whenever `tokens.length > 0`.  A missing file makes the job die with an
unhandled rejection (recorded in `unhandled`) without failing the stage.
Structured-JSON contents are outside the substitution model and left
untouched; the theorems only ever list `text` files in manifests. -/
def processItem (lib repo : String) (p : Params) (m : Mid) (item : String) : Mid :=
  match aget m.files item with
  | none =>
      ⟨m.files, m.paramsJson, m.diags, m.unhandled ++ [readFailMsg item],
       m.written, m.executed⟩
  | some (FileC.text s) =>
      if (tokensFor p item).length > 0 then
        ⟨aset m.files item
           (FileC.text ((tokensFor p item).foldl (substToken lib repo) (m.diags, s)).2),
         m.paramsJson,
         ((tokensFor p item).foldl (substToken lib repo) (m.diags, s)).1,
         m.unhandled, m.written ++ [item], m.executed⟩
      else
        ⟨m.files, m.paramsJson,
         ((tokensFor p item).foldl (substToken lib repo) (m.diags, s)).1,
         m.unhandled, m.written, m.executed⟩
  | some _ => m

/-- All per-file jobs of `replaceText`.  In the source the jobs are launched
by `forEach` on independent files and never awaited; they are sequenced here
in set order, which is observationally equivalent for the distinct paths of
`pathItemSet`. -/
def processItems (lib repo : String) (p : Params) (m : Mid) : Mid :=
  (pathItems p).foldl (processItem lib repo p) m

/-- The name of the parameter manifest file. -/
def paramsFileName : String := "template.parameters.json"

/-- The `SyntaxError` message Node's JSON parser raises inside `require` on a
file that is not well-formed JSON. -/
def jsonParseErrMsg : String := "Unexpected end of JSON input"

/-- The error message of `readParametersFile` for a missing manifest. -/
def paramsMissingMsg (repoFolder : String) : String :=
  paramsFileName ++ " does not exist in " ++ repoFolder

/-- `readParametersFile(repoFolder)`: missing file → the missing-manifest
error naming the file and the folder; a well-formed manifest is returned
parsed; a present file that does not parse as a token→paths mapping is the
`require` parse failure. -/
def readParametersFile (repoFolder : String) (files : Files) : Except String Params :=
  match aget files paramsFileName with
  | none => .error (paramsMissingMsg repoFolder)
  | some (FileC.params p) => .ok p
  | some _ => .error jsonParseErrMsg

/-- The error message of `updatePackageJson` for a missing `package.json`. -/
def pkgMissingMsg (repoFolder : String) : String :=
  pathJoin repoFolder "package.json" ++ " does not exist in " ++ repoFolder

/-- The filesystem effect of `updatePackageJson`: read `package.json`
(missing → the error naming its path), rewrite it in memory via
`updatePackageJson`, write it back (`fse.writeJson`).  A present file that
is not a JSON object document is the `fse.readJson` parse failure. -/
def updatePackageJsonFS (repoFolder repoName : String) (files : Files) :
    Except String Files :=
  match aget files "package.json" with
  | none => .error (pkgMissingMsg repoFolder)
  | some (FileC.pkg o) =>
      .ok (aset files "package.json" (FileC.pkg (updatePackageJson repoName o)))
  | some _ => .error jsonParseErrMsg

/-- The filesystem effect of `cleanup`: remove `types.d.ts` and
`template.parameters.json`, then rename `gitignore.template` → `.gitignore`
and `npmrc.template` → `.npmrc`.  All four operations are issued without
`await`; `failRemove`/`failMove` say which underlying operations reject
(their rejections are unobserved, so a failing operation simply leaves the
tree unchanged). -/
def cleanup (failRemove failMove : String → Bool) (files : Files) : Files :=
  let fs1 := if failRemove "types.d.ts" then files else aremove files "types.d.ts"
  let fs2 := if failRemove paramsFileName then fs1 else aremove fs1 paramsFileName
  let fs3 :=
    if failMove "gitignore.template" then fs2
    else moveF fs2 "gitignore.template" ".gitignore"
  if failMove "npmrc.template" then fs3 else moveF fs3 "npmrc.template" ".npmrc"

/-- A pipeline stage: state in, state out plus an optional fatal error. -/
abbrev Stage := Mid → Mid × Option String

/-- Stage 1, `copyTemplate`: `fse.copy(from, toFolder, { overwrite,
errorOnExist: !overwrite })` — with `overwrite` false an existing entry at a
copied path is an error; otherwise the template's entries overwrite the
destination's. -/
def copyStage (tpl : Files) (overwrite : Bool) (folder : String) : Stage :=
  fun m =>
    if ¬overwrite ∧ tpl.any (fun kv => (aget m.files kv.1).isSome) then
      (m, some (folder ++ " already exists"))
    else
      (⟨tpl.foldl (fun acc kv => aset acc kv.1 kv.2) m.files, m.paramsJson,
        m.diags, m.unhandled, m.written, m.executed⟩, none)

/-- The destination tree after copying the template into an empty or
pre-existing destination (`fse.copy` merges, template entries winning). -/
def copyMerge (tpl dest : Files) : Files :=
  tpl.foldl (fun acc kv => aset acc kv.1 kv.2) dest

/-- Stage 2, `removeDotGitFolder`: recursively delete `.git`. -/
def removeGitFiles (fs : Files) : Files :=
  fs.filter (fun kv => !(kv.1 == ".git" || strHasPre ".git/" kv.1))

/-- Stage 2 as a pipeline stage (never fails on a healthy tree). -/
def removeGitStage : Stage :=
  fun m =>
    (⟨removeGitFiles m.files, m.paramsJson, m.diags, m.unhandled, m.written,
      m.executed⟩, none)

/-- Stage 3: `ctx.paramsJson = await this.readParametersFile(...)`. -/
def readParamsStage (folder : String) : Stage :=
  fun m =>
    match readParametersFile folder m.files with
    | .ok p =>
        (⟨m.files, some p, m.diags, m.unhandled, m.written, m.executed⟩, none)
    | .error e => (m, some e)

/-- Stage 4: `await this.updatePackageJson(...)`. -/
def updatePkgStage (folder repo : String) : Stage :=
  fun m =>
    match updatePackageJsonFS folder repo m.files with
    | .ok fs =>
        (⟨fs, m.paramsJson, m.diags, m.unhandled, m.written, m.executed⟩, none)
    | .error e => (m, some e)

/-- Stage 5, `replaceText`: launches the per-file jobs and returns without
awaiting them (`pathItemSet.forEach(async ...)`), so the stage itself
*never* reports an error — any per-file failure escapes as an unhandled
rejection.  The `none` branch of `ctx.paramsJson` is unreachable behind
stage 3. -/
def replaceTextStage (lib repo : String) : Stage :=
  fun m =>
    match m.paramsJson with
    | some p => (processItems lib repo p m, none)
    | none => (m, some "paramsJson undefined")

/-- Stage 6, `cleanup`: all removals and renames are fire-and-forget, so the
stage always reports success. -/
def cleanupStage (failRemove failMove : String → Bool) : Stage :=
  fun m =>
    (⟨cleanup failRemove failMove m.files, m.paramsJson, m.diags, m.unhandled,
      m.written, m.executed⟩, none)

/-- Stage 7: only retitles itself with the destination path. -/
def libLocationStage : Stage := fun m => (m, none)

/-- The sequential `Listr` runner: records each started stage's title, stops
at the first stage reporting an error. -/
def runStages : List (String × Stage) → Mid → Mid × Option String
  | [], m => (m, none)
  | (title, f) :: rest, m =>
      match f ⟨m.files, m.paramsJson, m.diags, m.unhandled, m.written,
               m.executed ++ [title]⟩ with
      | (m2, none) => runStages rest m2
      | (m2, some e) => (m2, some e)

/-- The step list of `run` on the bundled-template path (no `templateUrl`). -/
def stagesList (lib repo folder : String) (overwrite : Bool) (tpl : Files)
    (failRemove failMove : String → Bool) : List (String × Stage) :=
  [("Copy template", copyStage tpl overwrite folder),
   ("Remove .git folder", removeGitStage),
   ("Read parameters file", readParamsStage folder),
   ("Update package.json", updatePkgStage folder repo),
   ("Replace text", replaceTextStage lib repo),
   ("Cleanup", cleanupStage failRemove failMove),
   ("Lib Location", libLocationStage)]

/-- The precheck error of `run` for an existing destination. -/
def destExistsMsg (folder : String) : String :=
  "Destination " ++ folder ++ " exists, use the '--overwrite' flag to overwrite."

/-- The initial state: the destination's pre-existing tree, if any. -/
def initMid (dest : Option Files) : Mid :=
  ⟨(match dest with | none => [] | some fs => fs), none, [], [], [], []⟩

/-- `run` from the point after argument normalization (first letter of the
lib name capitalized, leading `@` stripped from the repo name, destination
folder resolved): reject an existing destination unless `--overwrite`,
otherwise run the seven stages in order.  `dest` is the pre-existing
destination tree (`none` when `fse.pathExists` is false); `tpl` is the
bundled template's tree. -/
def runCreate (lib repo folder : String) (overwrite : Bool) (tpl : Files)
    (dest : Option Files) (failRemove failMove : String → Bool) :
    Mid × Option String :=
  if dest.isSome && !overwrite then
    (initMid dest, some (destExistsMsg folder))
  else
    runStages (stagesList lib repo folder overwrite tpl failRemove failMove)
      (initMid dest)

/-! ### Evaluation lemmas for the token table -/

theorem toFrom_at_libTok (lib repo : String) : toFrom lib repo libTok = some lib := rfl

theorem toFrom_at_repoTok (lib repo : String) : toFrom lib repo repoTok = some repo := rfl

theorem toFrom_at_unknown (lib repo : String) : toFrom lib repo "UNKNOWN_TOKEN" = none := rfl

theorem regexReplaceText_eq_lit (tok v content : String)
    (hp : patParse (escapeBraces tok).data = some tok.data)
    (hv : v.data.all (fun c => c ≠ '$') = true) :
    regexReplaceText tok v content = litReplaceG tok v content := by
  unfold regexReplaceText
  rw [hp]
  simp only [litReplaceG]
  rw [jsReplaceCore_eq_lit_of_noDollar _ _ hv]

/-! ### C7: parameter loading -/

theorem jsonParseErrMsg_ne_missing (folder : String) :
    jsonParseErrMsg ≠ paramsMissingMsg folder := by
  intro h
  have hl := congrArg String.length h
  have e1 : jsonParseErrMsg.length = 28 := rfl
  have e2 : (paramsFileName ++ " does not exist in ").length = 43 := rfl
  rw [paramsMissingMsg, String.length_append, e1, e2] at hl
  omega

/-- **C7 counterexample.**  The claim states `readParametersFile` errors *iff*
the manifest file is missing; a present but malformed
`template.parameters.json` also errors (the `require` parse failure), and
that error is not the missing-manifest error. -/
theorem claim_c7_counterexample :
    readParametersFile "/dest" [(paramsFileName, FileC.malformed)]
        = Except.error jsonParseErrMsg ∧
    (aget ([(paramsFileName, FileC.malformed)] : Files) paramsFileName).isSome = true ∧
    jsonParseErrMsg ≠ paramsMissingMsg "/dest" :=
  ⟨rfl, rfl, jsonParseErrMsg_ne_missing "/dest"⟩

/-- **C7** (amended).  `readParametersFile` raises the missing-manifest error
— whose message names the expected filename and the searched folder — iff
`template.parameters.json` is absent from the destination folder; when the
file exists and is well-formed JSON the parsed token→path-list mapping is
returned (a present but malformed file raises a parse error instead). -/
theorem claim_c7_amended_read_parameters (folder : String) (files : Files) :
    (aget files paramsFileName = none →
      readParametersFile folder files = Except.error (paramsMissingMsg folder)) ∧
    (∀ p : Params, aget files paramsFileName = some (FileC.params p) →
      readParametersFile folder files = Except.ok p) ∧
    (readParametersFile folder files = Except.error (paramsMissingMsg folder) →
      aget files paramsFileName = none) := by
  refine ⟨?_, ?_, ?_⟩
  · intro h
    unfold readParametersFile
    rw [h]
  · intro p h
    unfold readParametersFile
    rw [h]
  · intro h
    cases hg : aget files paramsFileName with
    | none => rfl
    | some c =>
        exfalso
        have hr : readParametersFile folder files
            = (match some c with
               | none => Except.error (paramsMissingMsg folder)
               | some (FileC.params p) => Except.ok p
               | some _ => Except.error jsonParseErrMsg) := by
          unfold readParametersFile
          rw [hg]
        cases c with
        | params p => rw [hr] at h; exact Except.noConfusion h
        | text s =>
            rw [hr] at h
            exact jsonParseErrMsg_ne_missing folder (Except.error.inj h)
        | pkg o =>
            rw [hr] at h
            exact jsonParseErrMsg_ne_missing folder (Except.error.inj h)
        | malformed =>
            rw [hr] at h
            exact jsonParseErrMsg_ne_missing folder (Except.error.inj h)

/-- Witness for **C7 (amended)**: a missing manifest errors with the message
naming file and folder; a present well-formed manifest is returned parsed. -/
theorem claim_c7_amended_witness :
    readParametersFile "/out/lib" ([] : Files)
        = Except.error (paramsMissingMsg "/out/lib") ∧
    readParametersFile "/out/lib" [(paramsFileName, FileC.params [(repoTok, ["a.txt"])])]
        = Except.ok [(repoTok, ["a.txt"])] :=
  ⟨(claim_c7_amended_read_parameters "/out/lib" ([] : Files)).1 rfl,
   (claim_c7_amended_read_parameters "/out/lib"
      [(paramsFileName, FileC.params [(repoTok, ["a.txt"])])]).2.1
      [(repoTok, ["a.txt"])] rfl⟩

/-! ### C9 and C10 -/

/-- **C9** (confirmed, implicit).  Token substitution does not insert the
resolved value literally when it contains replacement patterns: with resolved
repo name `a$&b` and a file containing `{{REPO}}`, the written content is
`a{{REPO}}b` (ECMAScript `$&` expands to the match), which differs from the
result of literal replacement (`a$&b`). -/
theorem claim_c9_replacement_patterns_expand :
    aget (processItems "Foo" "a$&b" [(repoTok, ["f.txt"])]
        ⟨[("f.txt", FileC.text repoTok)], some [(repoTok, ["f.txt"])],
         [], [], [], []⟩).files "f.txt"
      = some (FileC.text "a\x7b\x7bREPO\x7d\x7db") ∧
    litReplaceG repoTok "a$&b" repoTok = "a$&b" ∧
    ("a\x7b\x7bREPO\x7d\x7db" : String) ≠ "a$&b" :=
  ⟨rfl, rfl, by decide⟩

/-- **C10** (confirmed, implicit).  `cleanup` issues its removes and renames
without awaiting them, so the Cleanup stage reports success for every
filesystem state and every combination of failing underlying operations. -/
theorem claim_c10_cleanup_always_succeeds (failRemove failMove : String → Bool)
    (m : Mid) : (cleanupStage failRemove failMove m).2 = none := rfl

/-! ### C2 and C3: counterexamples -/

/-- **C2 counterexample.**  A run whose parameter manifest references
`missing.txt`, absent on disk: the claim says the run terminates with a fatal
error during Token Substitution and Cleanup does not execute; instead the
run finishes without a stage error, the Cleanup stage executes, and the read
failure is only an unhandled asynchronous rejection. -/
theorem claim_c2_counterexample :
    (runCreate "Foo" "org/bar" "/out/lib" false
        [("package.json", FileC.pkg [("name", JValue.str "x")]),
         (paramsFileName, FileC.params [(repoTok, ["missing.txt"])])]
        none (fun _ => false) (fun _ => false)).2 = none ∧
    "Cleanup" ∈ (runCreate "Foo" "org/bar" "/out/lib" false
        [("package.json", FileC.pkg [("name", JValue.str "x")]),
         (paramsFileName, FileC.params [(repoTok, ["missing.txt"])])]
        none (fun _ => false) (fun _ => false)).1.executed ∧
    (runCreate "Foo" "org/bar" "/out/lib" false
        [("package.json", FileC.pkg [("name", JValue.str "x")]),
         (paramsFileName, FileC.params [(repoTok, ["missing.txt"])])]
        none (fun _ => false) (fun _ => false)).1.unhandled
      = [readFailMsg "missing.txt"] :=
  ⟨rfl, by decide, rfl⟩

/-- **C3 counterexample.**  A file listed only under a token with no entry in
the resolution table: the claim says the file is left untouched (not
rewritten); instead the code's write-back condition `tokens.length > 0`
counts unresolved tokens too, so `b.txt` *is* written back (byte-identical
content), alongside the unresolved-token diagnostic. -/
theorem claim_c3_counterexample :
    (processItems "Foo" "org/bar" [("UNKNOWN_TOKEN", ["b.txt"])]
        ⟨[("b.txt", FileC.text "hello")], some [("UNKNOWN_TOKEN", ["b.txt"])],
         [], [], [], []⟩).written = ["b.txt"] ∧
    aget (processItems "Foo" "org/bar" [("UNKNOWN_TOKEN", ["b.txt"])]
        ⟨[("b.txt", FileC.text "hello")], some [("UNKNOWN_TOKEN", ["b.txt"])],
         [], [], [], []⟩).files "b.txt" = some (FileC.text "hello") ∧
    (processItems "Foo" "org/bar" [("UNKNOWN_TOKEN", ["b.txt"])]
        ⟨[("b.txt", FileC.text "hello")], some [("UNKNOWN_TOKEN", ["b.txt"])],
         [], [], [], []⟩).diags = [noMapMsg "UNKNOWN_TOKEN"] ∧
    toFrom "Foo" "org/bar" "UNKNOWN_TOKEN" = none :=
  ⟨rfl, rfl, rfl, rfl⟩

/-! ### Frame and accumulation lemmas for the per-file jobs -/

theorem processItem_files_ne (lib repo : String) (p : Params) (m : Mid)
    (item q : String) (h : q ≠ item) :
    aget (processItem lib repo p m item).files q = aget m.files q := by
  unfold processItem
  cases aget m.files item with
  | none => rfl
  | some c =>
      cases c with
      | text s =>
          by_cases hp : (tokensFor p item).length > 0
          · simp only [if_pos hp]
            exact aget_aset_ne _ _ _ _ (Ne.symm h)
          · simp only [if_neg hp]
      | pkg o => rfl
      | params pp => rfl
      | malformed => rfl

theorem processItems_files_notMem (lib repo : String) (p : Params) :
    ∀ (items : List String) (m : Mid) (q : String), q ∉ items →
      aget ((items.foldl (processItem lib repo p) m)).files q = aget m.files q := by
  intro items
  induction items with
  | nil => intro m q _; rfl
  | cons i rest ih =>
      intro m q hq
      rw [List.foldl_cons]
      rw [ih _ q (fun hr => hq (List.mem_cons_of_mem i hr))]
      exact processItem_files_ne lib repo p m i q (fun he => hq (he ▸ List.mem_cons_self i rest))

theorem processItem_unhandled_extend (lib repo : String) (p : Params) (m : Mid)
    (item : String) :
    ∃ l, (processItem lib repo p m item).unhandled = m.unhandled ++ l := by
  unfold processItem
  cases aget m.files item with
  | none => exact ⟨[readFailMsg item], rfl⟩
  | some c =>
      cases c with
      | text s =>
          by_cases hp : (tokensFor p item).length > 0
          · exact ⟨[], by simp only [if_pos hp]; simp⟩
          · exact ⟨[], by simp only [if_neg hp]; simp⟩
      | pkg o => exact ⟨[], by simp⟩
      | params pp => exact ⟨[], by simp⟩
      | malformed => exact ⟨[], by simp⟩

theorem processItems_unhandled_extend (lib repo : String) (p : Params) :
    ∀ (items : List String) (m : Mid),
      ∃ l, ((items.foldl (processItem lib repo p) m)).unhandled = m.unhandled ++ l := by
  intro items
  induction items with
  | nil => intro m; exact ⟨[], by simp⟩
  | cons i rest ih =>
      intro m
      obtain ⟨l1, h1⟩ := processItem_unhandled_extend lib repo p m i
      obtain ⟨l2, h2⟩ := ih (processItem lib repo p m i)
      exact ⟨l1 ++ l2, by rw [List.foldl_cons, h2, h1, List.append_assoc]⟩

theorem substFold_fst_extend (lib repo : String) :
    ∀ (toks : List String) (acc : List String × String),
      ∃ l, (toks.foldl (substToken lib repo) acc).1 = acc.1 ++ l := by
  intro toks
  induction toks with
  | nil => intro acc; exact ⟨[], by simp⟩
  | cons t rest ih =>
      intro acc
      obtain ⟨l2, h2⟩ := ih (substToken lib repo acc t)
      have h1 : ∃ l1, (substToken lib repo acc t).1 = acc.1 ++ l1 := by
        unfold substToken
        cases toFrom lib repo t with
        | none => exact ⟨[noMapMsg t], rfl⟩
        | some v =>
            by_cases hv : v = ""
            · exact ⟨[noMapMsg t], by simp only [if_pos hv]⟩
            · exact ⟨[], by simp only [if_neg hv]; simp⟩
      obtain ⟨l1, h1⟩ := h1
      exact ⟨l1 ++ l2, by rw [List.foldl_cons, h2, h1, List.append_assoc]⟩

theorem processItem_diags_extend (lib repo : String) (p : Params) (m : Mid)
    (item : String) :
    ∃ l, (processItem lib repo p m item).diags = m.diags ++ l := by
  unfold processItem
  cases aget m.files item with
  | none => exact ⟨[], by simp⟩
  | some c =>
      cases c with
      | text s =>
          obtain ⟨l, hl⟩ := substFold_fst_extend lib repo (tokensFor p item) (m.diags, s)
          by_cases hp : (tokensFor p item).length > 0
          · exact ⟨l, by simp only [if_pos hp]; exact hl⟩
          · exact ⟨l, by simp only [if_neg hp]; exact hl⟩
      | pkg o => exact ⟨[], by simp⟩
      | params pp => exact ⟨[], by simp⟩
      | malformed => exact ⟨[], by simp⟩

theorem processItems_diags_extend (lib repo : String) (p : Params) :
    ∀ (items : List String) (m : Mid),
      ∃ l, ((items.foldl (processItem lib repo p) m)).diags = m.diags ++ l := by
  intro items
  induction items with
  | nil => intro m; exact ⟨[], by simp⟩
  | cons i rest ih =>
      intro m
      obtain ⟨l1, h1⟩ := processItem_diags_extend lib repo p m i
      obtain ⟨l2, h2⟩ := ih (processItem lib repo p m i)
      exact ⟨l1 ++ l2, by rw [List.foldl_cons, h2, h1, List.append_assoc]⟩

theorem processItem_written_cases (lib repo : String) (p : Params) (m : Mid)
    (item : String) :
    (processItem lib repo p m item).written = m.written ∨
    (processItem lib repo p m item).written = m.written ++ [item] := by
  unfold processItem
  cases aget m.files item with
  | none => exact Or.inl rfl
  | some c =>
      cases c with
      | text s =>
          by_cases hp : (tokensFor p item).length > 0
          · exact Or.inr (by simp only [if_pos hp])
          · exact Or.inl (by simp only [if_neg hp])
      | pkg o => exact Or.inl rfl
      | params pp => exact Or.inl rfl
      | malformed => exact Or.inl rfl

theorem processItems_written_extend (lib repo : String) (p : Params) :
    ∀ (items : List String) (m : Mid),
      ∃ l, ((items.foldl (processItem lib repo p) m)).written = m.written ++ l := by
  intro items
  induction items with
  | nil => intro m; exact ⟨[], by simp⟩
  | cons i rest ih =>
      intro m
      obtain ⟨l2, h2⟩ := ih (processItem lib repo p m i)
      rcases processItem_written_cases lib repo p m i with h1 | h1
      · exact ⟨l2, by rw [List.foldl_cons, h2, h1]⟩
      · exact ⟨[i] ++ l2, by rw [List.foldl_cons, h2, h1, List.append_assoc]⟩

theorem processItems_written_from (lib repo : String) (p : Params) :
    ∀ (items : List String) (m : Mid) (r : String),
      r ∈ ((items.foldl (processItem lib repo p) m)).written →
      r ∈ m.written ∨ r ∈ items := by
  intro items
  induction items with
  | nil => intro m r h; exact Or.inl h
  | cons i rest ih =>
      intro m r h
      rw [List.foldl_cons] at h
      rcases ih (processItem lib repo p m i) r h with h1 | h1
      · rcases processItem_written_cases lib repo p m i with he | he
        · rw [he] at h1; exact Or.inl h1
        · rw [he] at h1
          rcases List.mem_append.mp h1 with h2 | h2
          · exact Or.inl h2
          · exact Or.inr (List.mem_cons.mpr (Or.inl (List.mem_singleton.mp h2)))
      · exact Or.inr (List.mem_cons_of_mem i h1)

theorem processItems_unhandled_missing (lib repo : String) (p : Params) :
    ∀ (items : List String) (m : Mid) (q : String), q ∈ items →
      aget m.files q = none →
      readFailMsg q ∈ ((items.foldl (processItem lib repo p) m)).unhandled := by
  intro items
  induction items with
  | nil => intro m q h _; exact absurd h (List.not_mem_nil q)
  | cons i rest ih =>
      intro m q hq hmiss
      rw [List.foldl_cons]
      by_cases he : i = q
      · subst he
        have hstep : (processItem lib repo p m i).unhandled
            = m.unhandled ++ [readFailMsg i] := by
          unfold processItem
          rw [hmiss]
        obtain ⟨l, hl⟩ :=
          processItems_unhandled_extend lib repo p rest (processItem lib repo p m i)
        rw [hl, hstep]
        simp
      · rcases List.mem_cons.mp hq with h | h
        · exact absurd h.symm he
        · refine ih _ q h ?_
          rw [processItem_files_ne lib repo p m i q (fun hh => he hh.symm)]
          exact hmiss

/-! ### C2: pipeline walk -/

theorem runStages_cons_ok (t : String) (f : Stage) (rest : List (String × Stage))
    (m m2 : Mid)
    (h : f ⟨m.files, m.paramsJson, m.diags, m.unhandled, m.written,
            m.executed ++ [t]⟩ = (m2, none)) :
    runStages ((t, f) :: rest) m = runStages rest m2 := by
  show (match f ⟨m.files, m.paramsJson, m.diags, m.unhandled, m.written,
                m.executed ++ [t]⟩ with
        | (m2, none) => runStages rest m2
        | (m2, some e) => (m2, some e)) = runStages rest m2
  rw [h]

/-- **C2** (amended).  When the parameter manifest lists a path that is
absent from the destination tree after manifest rewriting, the run does
*not* terminate with a fatal error: the Token Substitution stage launches
its per-file work without awaiting it, so the read failure escapes as an
unhandled asynchronous rejection, the stage reports success, the Cleanup
stage still executes, and the runner finishes without a stage error. -/
theorem claim_c2_amended_no_abort (lib repo folder : String) (overwrite : Bool)
    (tpl : Files) (frm fmv : String → Bool) (p : Params) (w4 : Files) (q : String)
    (hp : readParametersFile folder (removeGitFiles (copyMerge tpl []))
            = Except.ok p)
    (hw4 : updatePackageJsonFS folder repo (removeGitFiles (copyMerge tpl []))
            = Except.ok w4)
    (hq : q ∈ pathItems p)
    (hmiss : aget w4 q = none) :
    (runCreate lib repo folder overwrite tpl none frm fmv).2 = none ∧
    "Cleanup" ∈ (runCreate lib repo folder overwrite tpl none frm fmv).1.executed ∧
    readFailMsg q ∈ (runCreate lib repo folder overwrite tpl none frm fmv).1.unhandled := by
  have hany : (tpl.any fun kv => (aget ([] : Files) kv.1).isSome) = false := by
    apply List.any_eq_false.mpr
    intro kv _
    simp [aget]
  have hc1 : copyStage tpl overwrite folder ⟨[], none, [], [], [], ["Copy template"]⟩
      = (⟨copyMerge tpl [], none, [], [], [], ["Copy template"]⟩, none) := by
    unfold copyStage
    rw [if_neg]
    · rfl
    · intro hcon
      rw [hany] at hcon
      exact Bool.noConfusion hcon.2
  have hc3 : readParamsStage folder
        ⟨removeGitFiles (copyMerge tpl []), none, [], [], [],
         ["Copy template", "Remove .git folder", "Read parameters file"]⟩
      = (⟨removeGitFiles (copyMerge tpl []), some p, [], [], [],
          ["Copy template", "Remove .git folder", "Read parameters file"]⟩, none) := by
    unfold readParamsStage
    rw [hp]
  have hc4 : updatePkgStage folder repo
        ⟨removeGitFiles (copyMerge tpl []), some p, [], [], [],
         ["Copy template", "Remove .git folder", "Read parameters file",
          "Update package.json"]⟩
      = (⟨w4, some p, [], [], [],
          ["Copy template", "Remove .git folder", "Read parameters file",
           "Update package.json"]⟩, none) := by
    unfold updatePkgStage
    rw [hw4]
  have hrun : runCreate lib repo folder overwrite tpl none frm fmv
      = (⟨cleanup frm fmv
            (processItems lib repo p
              ⟨w4, some p, [], [], [],
               ["Copy template", "Remove .git folder", "Read parameters file",
                "Update package.json", "Replace text"]⟩).files,
          (processItems lib repo p
              ⟨w4, some p, [], [], [],
               ["Copy template", "Remove .git folder", "Read parameters file",
                "Update package.json", "Replace text"]⟩).paramsJson,
          (processItems lib repo p
              ⟨w4, some p, [], [], [],
               ["Copy template", "Remove .git folder", "Read parameters file",
                "Update package.json", "Replace text"]⟩).diags,
          (processItems lib repo p
              ⟨w4, some p, [], [], [],
               ["Copy template", "Remove .git folder", "Read parameters file",
                "Update package.json", "Replace text"]⟩).unhandled,
          (processItems lib repo p
              ⟨w4, some p, [], [], [],
               ["Copy template", "Remove .git folder", "Read parameters file",
                "Update package.json", "Replace text"]⟩).written,
          (processItems lib repo p
              ⟨w4, some p, [], [], [],
               ["Copy template", "Remove .git folder", "Read parameters file",
                "Update package.json", "Replace text"]⟩).executed
            ++ ["Cleanup"] ++ ["Lib Location"]⟩, none) := by
    calc runCreate lib repo folder overwrite tpl none frm fmv
        = runStages (stagesList lib repo folder overwrite tpl frm fmv)
            (initMid none) := rfl
      _ = runStages
            [("Remove .git folder", removeGitStage),
             ("Read parameters file", readParamsStage folder),
             ("Update package.json", updatePkgStage folder repo),
             ("Replace text", replaceTextStage lib repo),
             ("Cleanup", cleanupStage frm fmv),
             ("Lib Location", libLocationStage)]
            ⟨copyMerge tpl [], none, [], [], [], ["Copy template"]⟩ :=
          runStages_cons_ok _ _ _ _ _ hc1
      _ = runStages
            [("Read parameters file", readParamsStage folder),
             ("Update package.json", updatePkgStage folder repo),
             ("Replace text", replaceTextStage lib repo),
             ("Cleanup", cleanupStage frm fmv),
             ("Lib Location", libLocationStage)]
            ⟨removeGitFiles (copyMerge tpl []), none, [], [], [],
             ["Copy template", "Remove .git folder"]⟩ :=
          runStages_cons_ok _ _ _ _ _ rfl
      _ = runStages
            [("Update package.json", updatePkgStage folder repo),
             ("Replace text", replaceTextStage lib repo),
             ("Cleanup", cleanupStage frm fmv),
             ("Lib Location", libLocationStage)]
            ⟨removeGitFiles (copyMerge tpl []), some p, [], [], [],
             ["Copy template", "Remove .git folder", "Read parameters file"]⟩ :=
          runStages_cons_ok _ _ _ _ _ hc3
      _ = runStages
            [("Replace text", replaceTextStage lib repo),
             ("Cleanup", cleanupStage frm fmv),
             ("Lib Location", libLocationStage)]
            ⟨w4, some p, [], [], [],
             ["Copy template", "Remove .git folder", "Read parameters file",
              "Update package.json"]⟩ :=
          runStages_cons_ok _ _ _ _ _ hc4
      _ = runStages
            [("Cleanup", cleanupStage frm fmv),
             ("Lib Location", libLocationStage)]
            (processItems lib repo p
              ⟨w4, some p, [], [], [],
               ["Copy template", "Remove .git folder", "Read parameters file",
                "Update package.json", "Replace text"]⟩) :=
          runStages_cons_ok _ _ _ _ _ rfl
      _ = _ := by
          refine Eq.trans (runStages_cons_ok _ _ _ _ _ rfl) ?_
          exact runStages_cons_ok _ _ _ _ _ rfl
  refine ⟨by rw [hrun], ?_, ?_⟩
  · rw [hrun]
    exact List.mem_append_left _ (List.mem_append_right _ (List.mem_singleton.mpr rfl))
  · rw [hrun]
    exact processItems_unhandled_missing lib repo p (pathItems p) _ q hq hmiss

/-- Witness for **C2 (amended)** on a concrete template whose manifest lists
the absent `missing.txt`. -/
theorem claim_c2_amended_witness :
    (runCreate "Foo" "org/bar" "/out/lib" true
        [("package.json", FileC.pkg [("name", JValue.str "x")]),
         (paramsFileName, FileC.params [(repoTok, ["missing.txt"])])]
        none (fun _ => false) (fun _ => false)).2 = none ∧
    "Cleanup" ∈ (runCreate "Foo" "org/bar" "/out/lib" true
        [("package.json", FileC.pkg [("name", JValue.str "x")]),
         (paramsFileName, FileC.params [(repoTok, ["missing.txt"])])]
        none (fun _ => false) (fun _ => false)).1.executed ∧
    readFailMsg "missing.txt" ∈ (runCreate "Foo" "org/bar" "/out/lib" true
        [("package.json", FileC.pkg [("name", JValue.str "x")]),
         (paramsFileName, FileC.params [(repoTok, ["missing.txt"])])]
        none (fun _ => false) (fun _ => false)).1.unhandled :=
  claim_c2_amended_no_abort "Foo" "org/bar" "/out/lib" true
    [("package.json", FileC.pkg [("name", JValue.str "x")]),
     (paramsFileName, FileC.params [(repoTok, ["missing.txt"])])]
    (fun _ => false) (fun _ => false)
    [(repoTok, ["missing.txt"])]
    (aset (removeGitFiles (copyMerge
        [("package.json", FileC.pkg [("name", JValue.str "x")]),
         (paramsFileName, FileC.params [(repoTok, ["missing.txt"])])] []))
      "package.json" (FileC.pkg (updatePackageJson "org/bar" [("name", JValue.str "x")])))
    "missing.txt" rfl rfl (by decide) rfl

/-! ### C3: write-back machinery -/

theorem mem_addItems (y : String) : ∀ (xs acc : List String),
    (y ∈ addItems acc xs ↔ y ∈ acc ∨ y ∈ xs) := by
  intro xs
  induction xs with
  | nil => intro acc; simp [addItems]
  | cons x xs ih =>
      intro acc
      unfold addItems
      by_cases hc : acc.contains x = true
      · rw [if_pos hc, ih]
        have hx : x ∈ acc := by simpa using hc
        constructor
        · intro h
          rcases h with h | h
          · exact Or.inl h
          · exact Or.inr (List.mem_cons_of_mem x h)
        · intro h
          rcases h with h | h
          · exact Or.inl h
          · rcases List.mem_cons.mp h with h | h
            · exact Or.inl (h ▸ hx)
            · exact Or.inr h
      · rw [if_neg hc, ih]
        constructor
        · intro h
          rcases h with h | h
          · rcases List.mem_append.mp h with h | h
            · exact Or.inl h
            · exact Or.inr (List.mem_cons.mpr (Or.inl (List.mem_singleton.mp h)))
          · exact Or.inr (List.mem_cons_of_mem x h)
        · intro h
          rcases h with h | h
          · exact Or.inl (List.mem_append_left _ h)
          · rcases List.mem_cons.mp h with h | h
            · exact Or.inl (List.mem_append_right _ (List.mem_singleton.mpr h))
            · exact Or.inr h

theorem pathItems_from (q : String) : ∀ (p : Params) (acc : List String),
    q ∈ p.foldl (fun a kv => addItems a kv.2) acc →
    q ∈ acc ∨ ∃ kv ∈ p, q ∈ kv.2 := by
  intro p
  induction p with
  | nil => intro acc h; exact Or.inl h
  | cons e rest ih =>
      intro acc h
      rw [List.foldl_cons] at h
      rcases ih (addItems acc e.2) h with h1 | h1
      · rcases (mem_addItems q e.2 acc).mp h1 with h2 | h2
        · exact Or.inl h2
        · exact Or.inr ⟨e, List.mem_cons_self e rest, h2⟩
      · obtain ⟨kv, hkv, hq⟩ := h1
        exact Or.inr ⟨kv, List.mem_cons_of_mem _ hkv, hq⟩

theorem tokensFor_length_pos (p : Params) (q : String) (hq : q ∈ pathItems p) :
    (tokensFor p q).length > 0 := by
  rcases pathItems_from q p [] hq with h | h
  · exact absurd h (List.not_mem_nil q)
  · obtain ⟨kv, hkv, hmem⟩ := h
    have hm : kv.1 ∈ tokensFor p q := by
      unfold tokensFor
      exact List.mem_map.mpr
        ⟨kv, List.mem_filter.mpr ⟨hkv, by simpa using hmem⟩, rfl⟩
    exact List.length_pos.mpr (List.ne_nil_of_mem hm)

theorem addItems_nodup : ∀ (xs acc : List String), acc.Nodup → (addItems acc xs).Nodup := by
  intro xs
  induction xs with
  | nil => intro acc h; exact h
  | cons x xs ih =>
      intro acc h
      unfold addItems
      by_cases hc : acc.contains x = true
      · rw [if_pos hc]
        exact ih acc h
      · rw [if_neg hc]
        refine ih _ ?_
        rw [List.nodup_append]
        have hx : x ∉ acc := by simpa using hc
        exact ⟨h, List.nodup_singleton x,
               fun a ha hb => hx (List.mem_singleton.mp hb ▸ ha)⟩

theorem pathItems_nodup (p : Params) : (pathItems p).Nodup := by
  have hgen : ∀ (pp : Params) (acc : List String), acc.Nodup →
      (pp.foldl (fun a kv => addItems a kv.2) acc).Nodup := by
    intro pp
    induction pp with
    | nil => intro acc h; exact h
    | cons e rest ih =>
        intro acc h
        rw [List.foldl_cons]
        exact ih _ (addItems_nodup e.2 acc h)
  exact hgen p [] List.nodup_nil

theorem substFold_unresolved (lib repo : String) :
    ∀ (toks : List String) (d : List String) (s : String),
      (∀ t ∈ toks, toFrom lib repo t = none) →
      toks.foldl (substToken lib repo) (d, s) = (d ++ toks.map noMapMsg, s) := by
  intro toks
  induction toks with
  | nil => intro d s _; simp
  | cons t rest ih =>
      intro d s h
      rw [List.foldl_cons]
      have h1 : substToken lib repo (d, s) t = (d ++ [noMapMsg t], s) := by
        unfold substToken
        rw [h t (List.mem_cons_self t rest)]
      rw [h1, ih _ _ (fun t' ht' => h t' (List.mem_cons_of_mem _ ht'))]
      simp

theorem processItems_unresolved_file (lib repo : String) (p : Params) :
    ∀ (items : List String) (m : Mid) (q s : String),
      items.Nodup → q ∈ items →
      aget m.files q = some (FileC.text s) →
      (∀ t ∈ tokensFor p q, toFrom lib repo t = none) →
      (tokensFor p q).length > 0 →
      q ∈ ((items.foldl (processItem lib repo p) m)).written ∧
      aget ((items.foldl (processItem lib repo p) m)).files q
        = some (FileC.text s) ∧
      ∀ t ∈ tokensFor p q,
        noMapMsg t ∈ ((items.foldl (processItem lib repo p) m)).diags := by
  intro items
  induction items with
  | nil => intro m q s _ hq _ _ _; exact absurd hq (List.not_mem_nil q)
  | cons i rest ih =>
      intro m q s hnodup hq hs hunres hlen
      rw [List.foldl_cons]
      by_cases he : i = q
      · subst he
        have hstep : processItem lib repo p m i
            = ⟨aset m.files i (FileC.text s), m.paramsJson,
               m.diags ++ (tokensFor p i).map noMapMsg, m.unhandled,
               m.written ++ [i], m.executed⟩ := by
          unfold processItem
          rw [hs]
          simp only [if_pos hlen,
            substFold_unresolved lib repo (tokensFor p i) m.diags s hunres]
        have hnotmem : i ∉ rest := (List.nodup_cons.mp hnodup).1
        refine ⟨?_, ?_, ?_⟩
        · obtain ⟨l, hl⟩ := processItems_written_extend lib repo p rest _
          rw [hl, hstep]
          simp
        · rw [processItems_files_notMem lib repo p rest _ i hnotmem, hstep]
          exact aget_aset_self _ _ _
        · intro t ht
          obtain ⟨l, hl⟩ := processItems_diags_extend lib repo p rest _
          rw [hl, hstep]
          have hmem : noMapMsg t ∈ (tokensFor p i).map noMapMsg :=
            List.mem_map_of_mem _ ht
          simp [hmem]
      · have hq' : q ∈ rest := by
          rcases List.mem_cons.mp hq with h | h
          · exact absurd h.symm he
          · exact h
        refine ih _ q s (List.nodup_cons.mp hnodup).2 hq' ?_ hunres hlen
        rw [processItem_files_ne lib repo p m i q (fun hh => he hh.symm)]
        exact hs

/-- **C3** (amended).  A file is written back by Token Substitution iff it is
listed under at least one token of the parameter manifest — resolvable or
not: a file listed only under a token with no entry in the resolution table
*is* written back, with byte-identical contents, and the unresolved-token
diagnostic is emitted for each of its tokens; a file listed under no token
at all is left untouched and never written. -/
theorem claim_c3_amended_write_back (lib repo : String) (p : Params) (m : Mid)
    (q s r : String)
    (hq : q ∈ pathItems p)
    (hs : aget m.files q = some (FileC.text s))
    (hunres : ∀ t ∈ tokensFor p q, toFrom lib repo t = none)
    (hr : r ∉ pathItems p)
    (hrw : r ∉ m.written) :
    q ∈ (processItems lib repo p m).written ∧
    aget (processItems lib repo p m).files q = some (FileC.text s) ∧
    (∀ t ∈ tokensFor p q, noMapMsg t ∈ (processItems lib repo p m).diags) ∧
    aget (processItems lib repo p m).files r = aget m.files r ∧
    r ∉ (processItems lib repo p m).written := by
  have h1 := processItems_unresolved_file lib repo p (pathItems p) m q s
    (pathItems_nodup p) hq hs hunres (tokensFor_length_pos p q hq)
  refine ⟨h1.1, h1.2.1, h1.2.2, ?_, ?_⟩
  · exact processItems_files_notMem lib repo p (pathItems p) m r hr
  · intro hmem
    rcases processItems_written_from lib repo p (pathItems p) m r hmem with h | h
    · exact hrw h
    · exact hr h

/-- Witness for **C3 (amended)**: `b.txt`, listed only under
`UNKNOWN_TOKEN`, is written back with unchanged contents and the diagnostic
emitted, while the unlisted `c.txt` stays untouched and unwritten. -/
theorem claim_c3_amended_witness :
    "b.txt" ∈ (processItems "Foo" "org/bar" [("UNKNOWN_TOKEN", ["b.txt"])]
        ⟨[("b.txt", FileC.text "hello"), ("c.txt", FileC.text "keep")],
         some [("UNKNOWN_TOKEN", ["b.txt"])], [], [], [], []⟩).written ∧
    aget (processItems "Foo" "org/bar" [("UNKNOWN_TOKEN", ["b.txt"])]
        ⟨[("b.txt", FileC.text "hello"), ("c.txt", FileC.text "keep")],
         some [("UNKNOWN_TOKEN", ["b.txt"])], [], [], [], []⟩).files "b.txt"
      = some (FileC.text "hello") ∧
    noMapMsg "UNKNOWN_TOKEN" ∈ (processItems "Foo" "org/bar"
        [("UNKNOWN_TOKEN", ["b.txt"])]
        ⟨[("b.txt", FileC.text "hello"), ("c.txt", FileC.text "keep")],
         some [("UNKNOWN_TOKEN", ["b.txt"])], [], [], [], []⟩).diags ∧
    aget (processItems "Foo" "org/bar" [("UNKNOWN_TOKEN", ["b.txt"])]
        ⟨[("b.txt", FileC.text "hello"), ("c.txt", FileC.text "keep")],
         some [("UNKNOWN_TOKEN", ["b.txt"])], [], [], [], []⟩).files "c.txt"
      = aget ([("b.txt", FileC.text "hello"), ("c.txt", FileC.text "keep")] : Files)
          "c.txt" ∧
    "c.txt" ∉ (processItems "Foo" "org/bar" [("UNKNOWN_TOKEN", ["b.txt"])]
        ⟨[("b.txt", FileC.text "hello"), ("c.txt", FileC.text "keep")],
         some [("UNKNOWN_TOKEN", ["b.txt"])], [], [], [], []⟩).written := by
  have h := claim_c3_amended_write_back "Foo" "org/bar" [("UNKNOWN_TOKEN", ["b.txt"])]
    ⟨[("b.txt", FileC.text "hello"), ("c.txt", FileC.text "keep")],
     some [("UNKNOWN_TOKEN", ["b.txt"])], [], [], [], []⟩
    "b.txt" "hello" "c.txt" (by decide) rfl (by decide) (by decide) (by decide)
  exact ⟨h.1, h.2.1, h.2.2.1 "UNKNOWN_TOKEN" (by decide), h.2.2.2.1, h.2.2.2.2⟩

/-! ### C6: unresolved tokens are skipped without error -/

/-- **C6** (confirmed).  With the manifest
`{"{{LIB_NAME}}": ["a.txt"], "{{REPO}}": ["a.txt"], "UNKNOWN_TOKEN":
["b.txt"]}`: the Token Substitution stage reports no error although
`UNKNOWN_TOKEN` has no entry in the resolution table; the unresolved-token
diagnostic is emitted; and `a.txt`, affected only by resolved tokens, is
still rewritten correctly — every occurrence of `{{LIB_NAME}}` replaced by
the library name, then every occurrence of `{{REPO}}` by the repo name
(stated via literal global replacement for `$`-free names). -/
theorem claim_c6_unknown_token_skipped (lib repo sa sb : String)
    (hlib : lib ≠ "") (hrepo : repo ≠ "")
    (hlibD : lib.data.all (fun c => c ≠ '$') = true)
    (hrepoD : repo.data.all (fun c => c ≠ '$') = true) :
    (replaceTextStage lib repo
        ⟨[("a.txt", FileC.text sa), ("b.txt", FileC.text sb)],
         some [(libTok, ["a.txt"]), (repoTok, ["a.txt"]), ("UNKNOWN_TOKEN", ["b.txt"])],
         [], [], [], []⟩).2 = none ∧
    noMapMsg "UNKNOWN_TOKEN" ∈ (replaceTextStage lib repo
        ⟨[("a.txt", FileC.text sa), ("b.txt", FileC.text sb)],
         some [(libTok, ["a.txt"]), (repoTok, ["a.txt"]), ("UNKNOWN_TOKEN", ["b.txt"])],
         [], [], [], []⟩).1.diags ∧
    aget (replaceTextStage lib repo
        ⟨[("a.txt", FileC.text sa), ("b.txt", FileC.text sb)],
         some [(libTok, ["a.txt"]), (repoTok, ["a.txt"]), ("UNKNOWN_TOKEN", ["b.txt"])],
         [], [], [], []⟩).1.files "a.txt"
      = some (FileC.text (litReplaceG repoTok repo (litReplaceG libTok lib sa))) := by
  have e1 : substToken lib repo (([] : List String), sa) libTok
      = ([], regexReplaceText libTok lib sa) := by
    unfold substToken
    simp only [toFrom_at_libTok, if_neg hlib]
  have e2 : substToken lib repo (([] : List String), regexReplaceText libTok lib sa) repoTok
      = ([], regexReplaceText repoTok repo (regexReplaceText libTok lib sa)) := by
    unfold substToken
    simp only [toFrom_at_repoTok, if_neg hrepo]
  have hR : [libTok, repoTok].foldl (substToken lib repo) (([] : List String), sa)
      = ([], regexReplaceText repoTok repo (regexReplaceText libTok lib sa)) := by
    simp only [List.foldl_cons, List.foldl_nil]
    rw [e1, e2]
  have ha : processItem lib repo
        [(libTok, ["a.txt"]), (repoTok, ["a.txt"]), ("UNKNOWN_TOKEN", ["b.txt"])]
        ⟨[("a.txt", FileC.text sa), ("b.txt", FileC.text sb)],
         some [(libTok, ["a.txt"]), (repoTok, ["a.txt"]), ("UNKNOWN_TOKEN", ["b.txt"])],
         [], [], [], []⟩ "a.txt"
      = ⟨[("a.txt", FileC.text
              (regexReplaceText repoTok repo (regexReplaceText libTok lib sa))),
          ("b.txt", FileC.text sb)],
         some [(libTok, ["a.txt"]), (repoTok, ["a.txt"]), ("UNKNOWN_TOKEN", ["b.txt"])],
         [], [], ["a.txt"], []⟩ := by
    have hmid : processItem lib repo
          [(libTok, ["a.txt"]), (repoTok, ["a.txt"]), ("UNKNOWN_TOKEN", ["b.txt"])]
          ⟨[("a.txt", FileC.text sa), ("b.txt", FileC.text sb)],
           some [(libTok, ["a.txt"]), (repoTok, ["a.txt"]), ("UNKNOWN_TOKEN", ["b.txt"])],
           [], [], [], []⟩ "a.txt"
        = ⟨aset [("a.txt", FileC.text sa), ("b.txt", FileC.text sb)] "a.txt"
              (FileC.text
                ([libTok, repoTok].foldl (substToken lib repo) (([] : List String), sa)).2),
           some [(libTok, ["a.txt"]), (repoTok, ["a.txt"]), ("UNKNOWN_TOKEN", ["b.txt"])],
           ([libTok, repoTok].foldl (substToken lib repo) (([] : List String), sa)).1,
           [], ["a.txt"], []⟩ := rfl
    rw [hmid, hR]
    rfl
  have hfold : processItems lib repo
        [(libTok, ["a.txt"]), (repoTok, ["a.txt"]), ("UNKNOWN_TOKEN", ["b.txt"])]
        ⟨[("a.txt", FileC.text sa), ("b.txt", FileC.text sb)],
         some [(libTok, ["a.txt"]), (repoTok, ["a.txt"]), ("UNKNOWN_TOKEN", ["b.txt"])],
         [], [], [], []⟩
      = ⟨[("a.txt", FileC.text
              (regexReplaceText repoTok repo (regexReplaceText libTok lib sa))),
          ("b.txt", FileC.text sb)],
         some [(libTok, ["a.txt"]), (repoTok, ["a.txt"]), ("UNKNOWN_TOKEN", ["b.txt"])],
         [noMapMsg "UNKNOWN_TOKEN"], [], ["a.txt", "b.txt"], []⟩ := by
    show ([ "a.txt", "b.txt"].foldl (processItem lib repo
        [(libTok, ["a.txt"]), (repoTok, ["a.txt"]), ("UNKNOWN_TOKEN", ["b.txt"])])
        ⟨[("a.txt", FileC.text sa), ("b.txt", FileC.text sb)],
         some [(libTok, ["a.txt"]), (repoTok, ["a.txt"]), ("UNKNOWN_TOKEN", ["b.txt"])],
         [], [], [], []⟩) = _
    simp only [List.foldl_cons, List.foldl_nil]
    rw [ha]
    rfl
  refine ⟨rfl, ?_, ?_⟩
  · have hstage : (replaceTextStage lib repo
        ⟨[("a.txt", FileC.text sa), ("b.txt", FileC.text sb)],
         some [(libTok, ["a.txt"]), (repoTok, ["a.txt"]), ("UNKNOWN_TOKEN", ["b.txt"])],
         [], [], [], []⟩).1
      = processItems lib repo
          [(libTok, ["a.txt"]), (repoTok, ["a.txt"]), ("UNKNOWN_TOKEN", ["b.txt"])]
          ⟨[("a.txt", FileC.text sa), ("b.txt", FileC.text sb)],
           some [(libTok, ["a.txt"]), (repoTok, ["a.txt"]), ("UNKNOWN_TOKEN", ["b.txt"])],
           [], [], [], []⟩ := rfl
    rw [hstage, hfold]
    exact List.mem_singleton.mpr rfl
  · have hstage : (replaceTextStage lib repo
        ⟨[("a.txt", FileC.text sa), ("b.txt", FileC.text sb)],
         some [(libTok, ["a.txt"]), (repoTok, ["a.txt"]), ("UNKNOWN_TOKEN", ["b.txt"])],
         [], [], [], []⟩).1
      = processItems lib repo
          [(libTok, ["a.txt"]), (repoTok, ["a.txt"]), ("UNKNOWN_TOKEN", ["b.txt"])]
          ⟨[("a.txt", FileC.text sa), ("b.txt", FileC.text sb)],
           some [(libTok, ["a.txt"]), (repoTok, ["a.txt"]), ("UNKNOWN_TOKEN", ["b.txt"])],
           [], [], [], []⟩ := rfl
    rw [hstage, hfold]
    show some (FileC.text (regexReplaceText repoTok repo (regexReplaceText libTok lib sa)))
        = some (FileC.text (litReplaceG repoTok repo (litReplaceG libTok lib sa)))
    rw [regexReplaceText_eq_lit libTok lib sa rfl hlibD,
        regexReplaceText_eq_lit repoTok repo _ rfl hrepoD]

/-- Witness for **C6** at `libName = Foo`, `repoName = org/bar` on a file
containing both tokens. -/
theorem claim_c6_witness :
    (replaceTextStage "Foo" "org/bar"
        ⟨[("a.txt", FileC.text "x\x7b\x7bLIB_NAME\x7d\x7dy\x7b\x7bREPO\x7d\x7dz"),
          ("b.txt", FileC.text "keep")],
         some [(libTok, ["a.txt"]), (repoTok, ["a.txt"]), ("UNKNOWN_TOKEN", ["b.txt"])],
         [], [], [], []⟩).2 = none ∧
    noMapMsg "UNKNOWN_TOKEN" ∈ (replaceTextStage "Foo" "org/bar"
        ⟨[("a.txt", FileC.text "x\x7b\x7bLIB_NAME\x7d\x7dy\x7b\x7bREPO\x7d\x7dz"),
          ("b.txt", FileC.text "keep")],
         some [(libTok, ["a.txt"]), (repoTok, ["a.txt"]), ("UNKNOWN_TOKEN", ["b.txt"])],
         [], [], [], []⟩).1.diags ∧
    aget (replaceTextStage "Foo" "org/bar"
        ⟨[("a.txt", FileC.text "x\x7b\x7bLIB_NAME\x7d\x7dy\x7b\x7bREPO\x7d\x7dz"),
          ("b.txt", FileC.text "keep")],
         some [(libTok, ["a.txt"]), (repoTok, ["a.txt"]), ("UNKNOWN_TOKEN", ["b.txt"])],
         [], [], [], []⟩).1.files "a.txt"
      = some (FileC.text (litReplaceG repoTok "org/bar"
          (litReplaceG libTok "Foo" "x\x7b\x7bLIB_NAME\x7d\x7dy\x7b\x7bREPO\x7d\x7dz"))) :=
  claim_c6_unknown_token_skipped "Foo" "org/bar"
    "x\x7b\x7bLIB_NAME\x7d\x7dy\x7b\x7bREPO\x7d\x7dz" "keep"
    (by decide) (by decide) (by decide) (by decide)

/-! ### C8: destination precheck and overwrite -/

theorem aget_cons {α : Type} (a : String × α) (l : List (String × α)) (k : String) :
    aget (a :: l) k = if a.1 = k then some a.2 else aget l k := rfl

theorem aget_foldl_aset_notMem {α : Type} :
    ∀ (entries : List (String × α)) (acc : List (String × α)) (k : String),
      (∀ e ∈ entries, e.1 ≠ k) →
      aget (entries.foldl (fun a kv => aset a kv.1 kv.2) acc) k = aget acc k := by
  intro entries
  induction entries with
  | nil => intro acc k _; rfl
  | cons e rest ih =>
      intro acc k h
      rw [List.foldl_cons, ih _ k (fun x hx => h x (List.mem_cons_of_mem _ hx)),
          aget_aset_ne _ _ _ _ (h e (List.mem_cons_self e rest))]

theorem aget_copyMerge_left :
    ∀ (tpl : Files) (dest : Files) (k : String) (v : FileC),
      (tpl.map Prod.fst).Nodup → aget tpl k = some v →
      aget (copyMerge tpl dest) k = some v := by
  intro tpl
  induction tpl with
  | nil => intro dest k v _ h; exact Option.noConfusion h
  | cons e rest ih =>
      intro dest k v hnodup h
      rw [List.map_cons, List.nodup_cons] at hnodup
      unfold copyMerge
      rw [List.foldl_cons]
      rw [aget_cons] at h
      by_cases he : e.1 = k
      · rw [if_pos he] at h
        have hv : v = e.2 := (Option.some.inj h).symm
        subst hv
        rw [aget_foldl_aset_notMem rest _ k
              (fun x hx hxk => hnodup.1 (by
                rw [he, ← hxk]
                exact List.mem_map_of_mem Prod.fst hx))]
        rw [he]
        exact aget_aset_self _ _ _
      · rw [if_neg he] at h
        exact ih (aset dest e.1 e.2) k v hnodup.2 h

theorem copyStage_executed (tpl : Files) (ow : Bool) (folder : String) (m : Mid) :
    ((copyStage tpl ow folder m).1).executed = m.executed := by
  unfold copyStage
  split <;> rfl

theorem readParamsStage_executed (folder : String) (m : Mid) :
    ((readParamsStage folder m).1).executed = m.executed := by
  unfold readParamsStage
  split <;> rfl

theorem updatePkgStage_executed (folder repo : String) (m : Mid) :
    ((updatePkgStage folder repo m).1).executed = m.executed := by
  unfold updatePkgStage
  split <;> rfl

theorem processItem_executed (lib repo : String) (p : Params) (m : Mid)
    (item : String) : (processItem lib repo p m item).executed = m.executed := by
  unfold processItem
  split
  · rfl
  · split <;> rfl
  · rfl

theorem processItems_executed (lib repo : String) (p : Params) :
    ∀ (items : List String) (m : Mid),
      ((items.foldl (processItem lib repo p) m)).executed = m.executed := by
  intro items
  induction items with
  | nil => intro m; rfl
  | cons i rest ih =>
      intro m
      rw [List.foldl_cons, ih, processItem_executed]

theorem replaceTextStage_executed (lib repo : String) (m : Mid) :
    ((replaceTextStage lib repo m).1).executed = m.executed := by
  unfold replaceTextStage
  cases m.paramsJson with
  | none => rfl
  | some p => exact processItems_executed lib repo p (pathItems p) m

theorem stagesList_preserves_executed (lib repo folder : String) (ow : Bool)
    (tpl : Files) (frm fmv : String → Bool) :
    ∀ tf ∈ stagesList lib repo folder ow tpl frm fmv,
      ∀ x : Mid, ((tf.2 x).1).executed = x.executed := by
  intro tf htf x
  simp only [stagesList, List.mem_cons, List.not_mem_nil, or_false] at htf
  rcases htf with h | h | h | h | h | h | h <;> subst h
  · exact copyStage_executed tpl ow folder x
  · rfl
  · exact readParamsStage_executed folder x
  · exact updatePkgStage_executed folder repo x
  · exact replaceTextStage_executed lib repo x
  · rfl
  · rfl

theorem runStages_executed_extend :
    ∀ (stages : List (String × Stage)) (m : Mid),
      (∀ tf ∈ stages, ∀ x : Mid, ((tf.2 x).1).executed = x.executed) →
      ∃ l, ((runStages stages m).1).executed = m.executed ++ l := by
  intro stages
  induction stages with
  | nil => intro m _; exact ⟨[], by simp [runStages]⟩
  | cons tf rest ih =>
      intro m hp
      obtain ⟨t, f⟩ := tf
      cases hfm : f ⟨m.files, m.paramsJson, m.diags, m.unhandled, m.written,
                     m.executed ++ [t]⟩ with
      | mk m2 err =>
          have hm2 : m2.executed = m.executed ++ [t] := by
            have hh : ((f ⟨m.files, m.paramsJson, m.diags, m.unhandled, m.written,
                          m.executed ++ [t]⟩).1).executed = m.executed ++ [t] :=
              hp (t, f) (List.mem_cons_self _ _)
                ⟨m.files, m.paramsJson, m.diags, m.unhandled, m.written,
                 m.executed ++ [t]⟩
            rw [hfm] at hh
            exact hh
          cases err with
          | none =>
              obtain ⟨l, hl⟩ := ih m2 (fun tf' htf' => hp tf' (List.mem_cons_of_mem _ htf'))
              refine ⟨[t] ++ l, ?_⟩
              rw [runStages_cons_ok t f rest m m2 hfm, hl, hm2, List.append_assoc]
          | some e =>
              refine ⟨[t], ?_⟩
              have hrun : runStages ((t, f) :: rest) m = (m2, some e) := by
                show (match f ⟨m.files, m.paramsJson, m.diags, m.unhandled,
                              m.written, m.executed ++ [t]⟩ with
                      | (m2, none) => runStages rest m2
                      | (m2, some e) => (m2, some e)) = (m2, some e)
                rw [hfm]
              rw [hrun]
              exact hm2

/-- **C8** (confirmed).  When the destination folder already exists and
`overwrite` is false, `run` is rejected with the destination-exists error
before any pipeline stage executes and before any filesystem mutation (the
started-stage list is empty and the destination tree is unchanged); when
`overwrite` is true, acquisition proceeds (the Copy template stage runs) and
every file shipped by the template replaces any existing file at the same
path. -/
theorem claim_c8_destination_precheck (lib repo folder : String) (tpl dfs : Files)
    (frm fmv : String → Bool) (hnodup : (tpl.map Prod.fst).Nodup) :
    ((runCreate lib repo folder false tpl (some dfs) frm fmv).2
        = some (destExistsMsg folder) ∧
     (runCreate lib repo folder false tpl (some dfs) frm fmv).1.executed = [] ∧
     (runCreate lib repo folder false tpl (some dfs) frm fmv).1.files = dfs) ∧
    ("Copy template" ∈
        (runCreate lib repo folder true tpl (some dfs) frm fmv).1.executed ∧
     ∀ k v, aget tpl k = some v → aget (copyMerge tpl dfs) k = some v) := by
  refine ⟨⟨rfl, rfl, rfl⟩, ?_, ?_⟩
  · have h0 : runCreate lib repo folder true tpl (some dfs) frm fmv
        = runStages
            [("Remove .git folder", removeGitStage),
             ("Read parameters file", readParamsStage folder),
             ("Update package.json", updatePkgStage folder repo),
             ("Replace text", replaceTextStage lib repo),
             ("Cleanup", cleanupStage frm fmv),
             ("Lib Location", libLocationStage)]
            ⟨copyMerge tpl dfs, none, [], [], [], ["Copy template"]⟩ := rfl
    obtain ⟨l, hl⟩ := runStages_executed_extend
      [("Remove .git folder", removeGitStage),
       ("Read parameters file", readParamsStage folder),
       ("Update package.json", updatePkgStage folder repo),
       ("Replace text", replaceTextStage lib repo),
       ("Cleanup", cleanupStage frm fmv),
       ("Lib Location", libLocationStage)]
      ⟨copyMerge tpl dfs, none, [], [], [], ["Copy template"]⟩
      (fun tf htf => stagesList_preserves_executed lib repo folder true tpl frm fmv
        tf (List.mem_cons_of_mem _ htf))
    rw [h0, hl]
    exact List.mem_append_left _ (List.mem_singleton.mpr rfl)
  · intro k v h
    exact aget_copyMerge_left tpl dfs k v hnodup h

/-- Witness for **C8** on a concrete template and pre-existing destination:
the precheck rejects without executing stages, and with `--overwrite` the
copy proceeds and the template's `a.txt` replaces the existing one. -/
theorem claim_c8_witness :
    (runCreate "Foo" "org/bar" "/o/l" false
        [("package.json", FileC.pkg []), ("a.txt", FileC.text "A")]
        (some [("a.txt", FileC.text "old")])
        (fun _ => false) (fun _ => false)).2 = some (destExistsMsg "/o/l") ∧
    (runCreate "Foo" "org/bar" "/o/l" false
        [("package.json", FileC.pkg []), ("a.txt", FileC.text "A")]
        (some [("a.txt", FileC.text "old")])
        (fun _ => false) (fun _ => false)).1.executed = [] ∧
    "Copy template" ∈ (runCreate "Foo" "org/bar" "/o/l" true
        [("package.json", FileC.pkg []), ("a.txt", FileC.text "A")]
        (some [("a.txt", FileC.text "old")])
        (fun _ => false) (fun _ => false)).1.executed ∧
    aget (copyMerge [("package.json", FileC.pkg []), ("a.txt", FileC.text "A")]
        [("a.txt", FileC.text "old")]) "a.txt" = some (FileC.text "A") := by
  have h := claim_c8_destination_precheck "Foo" "org/bar" "/o/l"
    [("package.json", FileC.pkg []), ("a.txt", FileC.text "A")]
    [("a.txt", FileC.text "old")] (fun _ => false) (fun _ => false) (by decide)
  exact ⟨h.1.1, h.1.2.1, h.2.1, h.2.2 "a.txt" (FileC.text "A") rfl⟩

end CreateAioLib
